import Mathlib

/-
Verification of the `reduce` library (src/src/lib.rs).

The library is a single trait `Reducable<T>` with a provided method `reduce`
(resolving an optional initial accumulator, falling back to `Default::default()`,
then delegating to the required primitive `reduce_function`), a private helper
`get_initial`, and one implementation of the primitive for `Vec<T>` that folds
the elements left to right with a mutable accumulator.

Modelling conventions:
  * `Vec<T>` is `List T` (ordered sequence, storage order = list order).
  * The `R: Default` bound is modelled by passing the default value of `R`
    explicitly as a parameter `dflt : R`; `Default::default()` is `dflt`.
  * A trait implementer is modelled by its `reduce_function` primitive, a
    value of type `C → (R → T → R) → R → R`; the provided method
    `Reducable.reduce` takes that primitive as its first argument.
  * Element borrows `&T` become plain values `T` (the combining function only
    reads the element in both settings).
-/

namespace Reduce

/-- Rust `get_initial` (src/src/lib.rs lines 55-63): return the contained
value if present, otherwise `Default::default()` (the `dflt` parameter). -/
def get_initial {R : Type} (dflt : R) (initial : Option R) : R :=
  match initial with
  | some x => x
  | none => dflt

/-- The provided trait method `Reducable::reduce` (src/src/lib.rs lines 43-49):
resolve the optional initial value with `get_initial`, then call the
implementer's `reduce_function` with the resolved accumulator.  The
implementer is represented by its primitive `reduce_function`. -/
def Reducable.reduce {C T R : Type}
    (reduce_function : C → (R → T → R) → R → R)
    (dflt : R) (self : C) (fnc : R → T → R) (initial : Option R) : R :=
  let unpacked_initial : R := get_initial dflt initial
  reduce_function self fnc unpacked_initial

/-- `impl Reducable<T> for Vec<T>::reduce_function` (src/src/lib.rs lines
65-73): `return_value` starts at `initial_value`; the `for x in self` loop
replaces it with `fnc(return_value, x)` for each element in storage order;
the final value is returned. -/
def Vec.reduce_function {T R : Type} (self : List T) (fnc : R → T → R)
    (initial_value : R) : R :=
  match self with
  | [] => initial_value
  | x :: rest => Vec.reduce_function rest fnc (fnc initial_value x)

@[simp] theorem Vec.reduce_function_nil {T R : Type} (fnc : R → T → R) (i : R) :
    Vec.reduce_function [] fnc i = i := rfl

@[simp] theorem Vec.reduce_function_cons {T R : Type} (fnc : R → T → R)
    (x : T) (rest : List T) (i : R) :
    Vec.reduce_function (x :: rest) fnc i
      = Vec.reduce_function rest fnc (fnc i x) := rfl

/-- Instrumentation for counting applications of the combining function: each
step applies `fnc` and increments the counter. -/
def countingStep {T R : Type} (fnc : R → T → R) : R × Nat → T → R × Nat :=
  fun p t => (fnc p.1 t, p.2 + 1)

theorem reduce_function_counting {T R : Type} (self : List T)
    (fnc : R → T → R) (r : R) (n : Nat) :
    Vec.reduce_function self (countingStep fnc) (r, n)
      = (Vec.reduce_function self fnc r, n + self.length) := by
  induction self generalizing r n with
  | nil => simp
  | cons x rest ih =>
      simp [countingStep, ih]
      omega

theorem reduce_function_eq_foldl {T R : Type} (self : List T)
    (fnc : R → T → R) (i : R) :
    Vec.reduce_function self fnc i = List.foldl fnc i self := by
  induction self generalizing i with
  | nil => rfl
  | cons x rest ih => simp [ih]

/-- State-threading embedding of the `for x in self` loop: the container is
carried through every iteration as explicit state `st`; iteration `i` reads
`st[i]` and updates only the accumulator.  The pair returned is the final
accumulator together with the container state after the loop. -/
def Vec.reduceLoop {T R : Type} (fnc : R → T → R) (st : List T) (i : Nat)
    (acc : R) : R × List T :=
  if h : i < st.length then
    Vec.reduceLoop fnc st (i + 1) (fnc acc (st.get ⟨i, h⟩))
  else
    (acc, st)
termination_by st.length - i

/-- `Vec::reduce_function` as a call that also reports the container state
observable by the caller once the shared borrow of `self` ends. -/
def Vec.reduce_function_call {T R : Type} (self : List T) (fnc : R → T → R)
    (initial_value : R) : R × List T :=
  Vec.reduceLoop fnc self 0 initial_value

theorem reduceLoop_snd {T R : Type} (fnc : R → T → R) (st : List T) (i : Nat)
    (acc : R) : (Vec.reduceLoop fnc st i acc).2 = st := by
  rw [Vec.reduceLoop]
  split
  · exact reduceLoop_snd fnc st (i + 1) _
  · rfl
termination_by st.length - i

theorem reduceLoop_fst {T R : Type} (fnc : R → T → R) (st : List T) (i : Nat)
    (acc : R) :
    (Vec.reduceLoop fnc st i acc).1
      = Vec.reduce_function (st.drop i) fnc acc := by
  rw [Vec.reduceLoop]
  split
  · next h =>
      rw [reduceLoop_fst fnc st (i + 1) _, List.drop_eq_getElem_cons h,
        Vec.reduce_function_cons]
      simp only [List.get_eq_getElem]
  · next h =>
      rw [List.drop_eq_nil_of_le (by omega)]
      rfl
termination_by st.length - i

/-- Panic-instrumented embedding of `Vec::reduce_function`: the loop body's
call `fnc(return_value, x)` may fail (`Except.error`), and the failure unwinds
out of the loop at once — the source installs no handler, so nothing catches,
wraps or translates it. -/
def Vec.reduce_functionE {T R E : Type} (self : List T)
    (fnc : R → T → Except E R) (initial_value : R) : Except E R :=
  match self with
  | [] => Except.ok initial_value
  | x :: rest =>
    match fnc initial_value x with
    | Except.ok next => Vec.reduce_functionE rest fnc next
    | Except.error e => Except.error e

/-- C1: for every Vec `[e1, ..., en]`, combining function `fnc` and explicit
initial accumulator `v`, `reduce(fnc, Some(v))` is the left-to-right fold
`fnc(fnc(...fnc(v, e1)..., e(n-1)), en)`: the Vec `reduce_function` iterates
the elements in storage order, replacing the accumulator with
`fnc(accumulator, element)` at each step. -/
theorem vec_reduce_some_is_left_fold {T R : Type} (self : List T)
    (fnc : R → T → R) (v dflt : R) :
    Reducable.reduce Vec.reduce_function dflt self fnc (some v)
      = List.foldl fnc v self := by
  unfold Reducable.reduce get_initial
  exact reduce_function_eq_foldl self fnc v

/-- C2: the provided `reduce` uses the explicit initial value verbatim when
present and the default value of `R` when absent (`get_initial` returns the
contained value for `Some x` and `Default::default()` for `None`, with no
error path), and returns exactly the implementer's `reduce_function` applied
to the resolved starting accumulator. -/
theorem reduce_resolves_initial {C T R : Type}
    (rf : C → (R → T → R) → R → R) (dflt x : R) (self : C)
    (fnc : R → T → R) (initial : Option R) :
    get_initial dflt (some x) = x
      ∧ get_initial dflt none = dflt
      ∧ Reducable.reduce rf dflt self fnc initial
          = rf self fnc (get_initial dflt initial) :=
  ⟨rfl, rfl, rfl⟩

/-- C3: omitting the initial value is equivalent to passing the accumulator
type's default value explicitly: `reduce(fnc, None) = reduce(fnc, Some(default))`
for every implementer. -/
theorem reduce_none_eq_reduce_some_default {C T R : Type}
    (rf : C → (R → T → R) → R → R) (dflt : R) (self : C)
    (fnc : R → T → R) :
    Reducable.reduce rf dflt self fnc none
      = Reducable.reduce rf dflt self fnc (some dflt) :=
  rfl

/-- C4: on the empty Vec, `reduce(fnc, Some(v))` returns `v` unchanged,
`reduce(fnc, None)` returns the default value of `R`, and the Vec primitive
performs zero applications of the combining function (shown by the counting
instrumentation leaving the counter at 0). -/
theorem reduce_empty_identity {T R : Type} (fnc : R → T → R) (v dflt : R) :
    Reducable.reduce Vec.reduce_function dflt ([] : List T) fnc (some v) = v
      ∧ Reducable.reduce Vec.reduce_function dflt ([] : List T) fnc none = dflt
      ∧ Vec.reduce_function ([] : List T) (countingStep fnc) (v, 0) = (v, 0) :=
  ⟨rfl, rfl, rfl⟩

/-- C5: reduce on a Vec is deterministic: any two calls with the same Vec,
combining function and optional initial value yield the same single result. -/
theorem vec_reduce_deterministic {T R : Type} (self : List T)
    (fnc : R → T → R) (dflt : R) (initial : Option R) (r1 r2 : R)
    (h1 : r1 = Reducable.reduce Vec.reduce_function dflt self fnc initial)
    (h2 : r2 = Reducable.reduce Vec.reduce_function dflt self fnc initial) :
    r1 = r2 :=
  h1.trans h2.symm

/-- Witness for C5 at the concrete call `[1, 2, 3].reduce(+, Some 10)`. -/
theorem vec_reduce_deterministic_witness :
    (16 : Nat)
        = Reducable.reduce Vec.reduce_function 0 [1, 2, 3] (fun a t => a + t)
            (some 10)
      ∧ (16 : Nat) = 16 :=
  ⟨by decide,
    vec_reduce_deterministic [1, 2, 3] (fun a t => a + t) 0 (some 10) 16 16
      (by decide) (by decide)⟩

/-- C6: reduce on a Vec of length `n` terminates (it is a total function of
this development) and applies the combining function exactly `n` times, once
per element in iteration order: running the counting instrumentation from
counter 0 yields the ordinary result paired with the Vec's length. -/
theorem vec_reduce_applies_once_per_element {T R : Type} (self : List T)
    (fnc : R → T → R) (r : R) :
    Vec.reduce_function self (countingStep fnc) (r, 0)
      = (Vec.reduce_function self fnc r, self.length) := by
  rw [reduce_function_counting]
  simp

/-- C7: a `reduce_function` call on a Vec leaves the container unchanged:
threading the container through every loop iteration as explicit state, the
call returns the fold result together with exactly the container it was
given, with contents and length intact. -/
theorem vec_reduce_frame {T R : Type} (self : List T) (fnc : R → T → R)
    (initial_value : R) :
    (Vec.reduce_function_call self fnc initial_value).2 = self
      ∧ (Vec.reduce_function_call self fnc initial_value).2.length = self.length
      ∧ (Vec.reduce_function_call self fnc initial_value).1
          = Vec.reduce_function self fnc initial_value := by
  refine ⟨reduceLoop_snd fnc self 0 initial_value, ?_, ?_⟩
  · rw [Vec.reduce_function_call, reduceLoop_snd fnc self 0 initial_value]
  · rw [Vec.reduce_function_call, reduceLoop_fst fnc self 0 initial_value]
    rfl

/-- C8: if the combining function fails at some application during the fold
(here: after succeeding on the prefix `v1`, it fails on element `x` with
error `e`), the failure propagates to the caller unmodified — the result is
exactly `Except.error e`, never caught, wrapped or translated, and no partial
accumulator is part of that result. -/
theorem combining_failure_propagates {T R E : Type} (v1 v2 : List T) (x : T)
    (fnc : R → T → Except E R) (init acc : R) (e : E)
    (hok : Vec.reduce_functionE v1 fnc init = Except.ok acc)
    (hfail : fnc acc x = Except.error e) :
    Vec.reduce_functionE (v1 ++ x :: v2) fnc init = Except.error e := by
  induction v1 generalizing init with
  | nil =>
      cases hok
      simp [Vec.reduce_functionE, hfail]
  | cons y ys ih =>
      rw [Vec.reduce_functionE] at hok
      rw [List.cons_append, Vec.reduce_functionE]
      cases hy : fnc init y with
      | ok next =>
          rw [hy] at hok
          exact ih next hok
      | error e2 =>
          rw [hy] at hok
          cases hok

/-- Witness for C8: summing `[1, 0, 2]` with a function that fails on 0,
after succeeding on the prefix `[1]`, returns precisely that error. -/
theorem combining_failure_propagates_witness :
    Vec.reduce_functionE [1]
        (fun (a t : Nat) => if t = 0 then Except.error 7 else Except.ok (a + t)) 0
        = Except.ok 1
      ∧ (fun (a t : Nat) =>
            if t = 0 then Except.error 7 else Except.ok (a + t)) 1 0
          = Except.error 7
      ∧ Vec.reduce_functionE ([1] ++ 0 :: [2])
          (fun (a t : Nat) => if t = 0 then Except.error 7 else Except.ok (a + t)) 0
          = Except.error (7 : Nat) :=
  ⟨rfl, rfl,
    combining_failure_propagates [1] [2] 0
      (fun a t => if t = 0 then Except.error 7 else Except.ok (a + t))
      0 1 7 rfl rfl⟩

/-- C9: the Vec fold decomposes over concatenation: folding `v1 ++ v2` from
`r` equals folding `v2` from the result of folding `v1` from `r`. -/
theorem vec_reduce_append {T R : Type} (v1 v2 : List T) (fnc : R → T → R)
    (r : R) :
    Vec.reduce_function (v1 ++ v2) fnc r
      = Vec.reduce_function v2 fnc (Vec.reduce_function v1 fnc r) := by
  induction v1 generalizing r with
  | nil => rfl
  | cons x rest ih => simp [ih]

/-- C10: with an explicit initial value `Some v`, the result of reduce on a
Vec does not depend on the accumulator type's default value: computing under
default `d1` or `d2` gives the same result, since the default is consulted
only in the `None` case. -/
theorem reduce_some_default_independent {T R : Type} (self : List T)
    (fnc : R → T → R) (v d1 d2 : R) :
    Reducable.reduce Vec.reduce_function d1 self fnc (some v)
      = Reducable.reduce Vec.reduce_function d2 self fnc (some v) :=
  rfl

end Reduce

